import Mathlib

/-
  Verification development for the jslexer repository (src/lexer.js).

  The JavaScript source is shallowly embedded below.  Strings are modelled as
  `List Char`, JavaScript values as `JSVal`, and the host regular-expression
  engine's scan loop (`String.prototype.replace` with a global regex) is
  modelled by folding the per-match handler over an abstract list of match
  records, since the host regex engine is an external black box for this
  program.  The three small hand-written scanning regexes that the program
  itself runs over *pattern text* (capture counting, backreference
  renumbering, escaping) are embedded as executable character scanners with
  the same alternative ordering and backtracking behaviour as the JavaScript
  regex literals they come from.
-/

namespace JsLexer

/-- JavaScript line terminators: the characters that `.` (and only these)
fails to match in a non-dotAll regex, per ECMA-262. -/
def lineTerm (c : Char) : Bool :=
  c = '\n' || c = '\r' || c = Char.ofNat 0x2028 || c = Char.ofNat 0x2029

/-- Matcher for the tail `(?:\\.|[^\]])*\]` of the character-class
alternative `\[(?:\\.|[^\]])*\]` in the `capture_exp` regex of
`Rule.numCaptures` (src/lexer.js line 104), with JavaScript ordered-choice
backtracking: at each step `\\.` is tried before `[^\]]`, and exiting the
star is tried last.  Returns the number of characters consumed (including
the closing `]`), or `none` when the tail cannot match. -/
def clsTailUsed : List Char → Option Nat
  | [] => none
  | '\\' :: [] => none
  | '\\' :: d :: rest =>
      if lineTerm d then
        -- `\\.` cannot match a line terminator; `[^\]]` consumes the `\`
        (clsTailUsed (d :: rest)).map (· + 1)
      else
        match clsTailUsed rest with
        | some n => some (n + 2)
        | none => (clsTailUsed (d :: rest)).map (· + 1)
  | ']' :: _ => some 1
  | _ :: rest => (clsTailUsed rest).map (· + 1)

/-- Matcher for the tail `(?:\\.|[^\]])+\]` (one-or-more body) of the
character-class alternative in the `backref_exp` regex of
`Rule.updateReferences` (src/lexer.js line 121): one body item followed by
the starred tail. -/
def clsTailPlusUsed : List Char → Option Nat
  | [] => none
  | '\\' :: [] => none
  | '\\' :: d :: rest =>
      if lineTerm d then
        (clsTailUsed (d :: rest)).map (· + 1)
      else
        match clsTailUsed rest with
        | some n => some (n + 2)
        | none => (clsTailUsed (d :: rest)).map (· + 1)
  | ']' :: _ => none
  | _ :: rest => (clsTailUsed rest).map (· + 1)

/-- Global scan of `Rule.numCaptures` (src/lexer.js lines 94-113): the regex
`/\\.|(?:\[(?:\\.|[^\]])*\])|(\((?!\?[!:=]))/g` is run over the pattern text
and the capture count is incremented exactly when the third alternative
(a `(` not followed by `?:`, `?!` or `?=`) fires.  Positions where no
alternative matches are skipped one character at a time, as the host global
scan does. -/
def numCapturesAux : List Char → Nat
  | [] => 0
  | '\\' :: [] => 0
  | '\\' :: d :: rest =>
      if lineTerm d then numCapturesAux (d :: rest) else numCapturesAux rest
  | '[' :: rest =>
      match clsTailUsed rest with
      | some n => numCapturesAux (rest.drop n)
      | none => numCapturesAux rest
  | '(' :: '?' :: c :: rest =>
      if c = '!' || c = ':' || c = '=' then numCapturesAux ('?' :: c :: rest)
      else 1 + numCapturesAux ('?' :: c :: rest)
  | '(' :: rest => 1 + numCapturesAux rest
  | _ :: rest => numCapturesAux rest
termination_by l => l.length
decreasing_by all_goals (simp_all [List.length_drop]; try omega)

/-- `Rule.numCaptures` on a pattern text. -/
def numCaptures (p : List Char) : Nat := numCapturesAux p

/-- `parseInt(p1, 10)` on a nonempty run of decimal digits. -/
def decVal (ds : List Char) : Nat :=
  ds.foldl (fun a c => 10 * a + (c.toNat - 48)) 0

/-- The longest prefix of octal digits, as consumed by `parseInt(p1, 8)`. -/
def octPre (ds : List Char) : List Char :=
  ds.takeWhile (fun c => '0' ≤ c && c ≤ '7')

/-- `String(parseInt(p1, 8))` on a run of decimal digits: the decimal
rendering of the longest octal-digit prefix, or `"NaN"` when that prefix is
empty (digits starting with `8` or `9`). -/
def octRender (ds : List Char) : List Char :=
  if octPre ds = [] then "NaN".toList else (Nat.repr (decVal8 (octPre ds))).toList
where
  decVal8 (l : List Char) : Nat := l.foldl (fun a c => 8 * a + (c.toNat - 48)) 0

/-- Global scan of `Rule.updateReferences` (src/lexer.js lines 117-135):
the regex `/\[(?:\\.|[^\]])+\]|\\\D|\\(\d+)/g` is run over the pattern
text with `String.prototype.replace`.  Character classes and
backslash-non-digit pairs are kept verbatim; for a backslash-digit-run
token the callback substitutes `'\\' + (backref + offset + 1)` when
`0 < backref <= numCaptures`, and the (stringified) number
`parseInt(p1, 8)` otherwise.  `nc` is the value of `rule.numCaptures()`,
computed on this same pattern text. -/
def urScan (nc offset : Nat) : List Char → List Char
  | [] => []
  | '[' :: rest =>
      match clsTailPlusUsed rest with
      | some n => '[' :: rest.take n ++ urScan nc offset (rest.drop n)
      | none => '[' :: urScan nc offset rest
  | '\\' :: [] => ['\\']
  | '\\' :: d :: rest =>
      if d.isDigit then
        -- `\d+` is greedy: the token is `\` followed by the maximal digit run
        let ds := d :: rest.takeWhile Char.isDigit
        let n := decVal ds
        (if 0 < n && n ≤ nc then '\\' :: (Nat.repr (n + offset + 1)).toList
         else octRender ds) ++
          urScan nc offset (rest.drop (rest.takeWhile Char.isDigit).length)
      else '\\' :: d :: urScan nc offset rest
  | c :: rest => c :: urScan nc offset rest
termination_by l => l.length
decreasing_by all_goals (simp_all [List.length_drop]; try omega)

/-- `Rule.updateReferences(offset)`: rewrites `this.pattern` by the global
scan above, with `rule.numCaptures()` computed from the (original) pattern
text itself. -/
def updateReferences (offset : Nat) (p : List Char) : List Char :=
  urScan (numCaptures p) offset p

/-- Lexer scan state (the `State` constructor, src/lexer.js lines 63-67). -/
structure LexState where
  line : Int
  offset : Int
  updated : Bool
deriving DecidableEq

/-- A content candidate, as JavaScript sees the value `val` in `Lexer.lex`:
`null` and `undefined` are distinguished (both are `== null`), other
values carry their payloads. -/
inductive JContent where
  | cnull
  | cundefv
  | cstr (s : List Char)
  | cnum (n : Int)
  | cbool (b : Bool)
deriving DecidableEq

/-- The capture-slot view of a match: `arguments[1]`, `arguments[2]`, ... of
the replace callback; `none` models an `undefined` (unmatched) group. -/
abbrev Captures := List (Option (List Char))

/-- A rule callback: receives the sliced capture list and the live scan
state, returns the content candidate and the (possibly mutated) state. -/
abbrev Callback := Captures → LexState → JContent × LexState

/-- A JavaScript value, covering the cases the lexer's validation and
truthiness tests distinguish. -/
inductive JSVal where
  | undefv
  | jsnull
  | boolean (b : Bool)
  | number (n : Int)
  | string (s : List Char)
  | regexp (source : List Char)
  | func (f : Callback)
  | arrayv
  | objectv

/-- JavaScript truthiness of a `JSVal`. -/
def JSVal.truthy : JSVal → Bool
  | .undefv => false
  | .jsnull => false
  | .boolean b => b
  | .number n => n != 0
  | .string s => s != []
  | _ => true

/-- `typeof v == 'string'`. -/
def JSVal.isString : JSVal → Bool
  | .string _ => true
  | _ => false

/-- `v instanceof RegExp || typeof v == 'string'`. -/
def JSVal.isRegexpOrString : JSVal → Bool
  | .regexp _ => true
  | .string _ => true
  | _ => false

/-- `v instanceof Function`. -/
def JSVal.isFunc : JSVal → Bool
  | .func _ => true
  | _ => false

/-- The string payload of a `JSVal` (used only after `isString` holds). -/
def JSVal.str : JSVal → List Char
  | .string s => s
  | _ => []

/-- String concatenation coercion (`'' + v`), as used when `overallExp +=`
receives a non-string: `undefined` stringifies to `"undefined"`. -/
def JSVal.concatString : JSVal → List Char
  | .undefv => "undefined".toList
  | .jsnull => "null".toList
  | .string s => s
  | _ => []

/-- `String.prototype.format` (src/lexer.js lines 46-52) calls
`this.replace` but never returns, so every `.format(...)` call evaluates to
`undefined` regardless of template or arguments. -/
def jsFormat (tmpl : List Char) (args : List JSVal) : JSVal :=
  .undefv

/-- A caller-supplied rule description: the fields `compile` reads off each
element of the `rules` array.  A missing field reads as `undefined`. -/
structure RuleSpec where
  name : JSVal
  pattern : JSVal
  callback : JSVal
  discard : JSVal

/-- The `rules` constructor argument.  Anything failing
`rules instanceof Array` (including `null`) is `notArray`; array elements
that are falsy (so that `!rule` holds, e.g. `null`) are `none`; a truthy
non-object element (e.g. `1`) reads all four fields as `undefined`. -/
inductive RulesArg where
  | notArray
  | array (l : List (Option RuleSpec))

/-- The identifier carried by a `Lexer.ValidationError`: `null`, a 1-based
rule index, or a (validated) rule name. -/
inductive VKey where
  | nullKey
  | idx (i : Nat)
  | name (s : List Char)
deriving DecidableEq

/-- `Lexer.ValidationError` (src/lexer.js lines 270-285): the offending rule
identifier and the message value (which is `undefined` for the messages
built with the returnless `format`). -/
structure VError where
  rulekey : VKey
  msg : JSVal

/-- A compiled `Rule` object (src/lexer.js lines 87-136) as it sits in
`this._rules` after `compile`: pattern text after escaping, HTML-entity
substitution and backreference renumbering, plus the memoized
`_numCaptures` value (computed on the pre-renumbering text; renumbering
replaces backslash-digit tokens by digit strings only, which cannot change
the group count, so the memoized value is the one every later
`numCaptures()` call returns). -/
structure CRule where
  name : List Char
  pattern : List Char
  callback : Option Callback
  discard : Bool
  nCaptures : Nat

/-- The escape pass for literal string patterns (src/lexer.js line 161):
`rule.pattern.replace(/[-.*+?^$()\[\]{}\\]/g, '\\$1')`.  The regex has no
capture group, so `$1` in the replacement is literal text: each
metacharacter is replaced by the three characters backslash, dollar, `1`. -/
def escapeStringPattern (s : List Char) : List Char :=
  s.flatMap fun c =>
    if c ∈ ['-', '.', '*', '+', '?', '^', '$', '(', ')', '[', ']',
            Char.ofNat 0x7b, Char.ofNat 0x7d, '\\']
    then ['\\', '$', '1'] else [c]

/-- The HTML-entity pass (src/lexer.js line 162): replace `&`, then `<`,
then `>`.  The sequencing is equivalent to this single character map since
no replacement text contains a character replaced by a later pass that was
not already processed. -/
def htmlEscape (s : List Char) : List Char :=
  s.flatMap fun c =>
    if c = '&' then "&amp;".toList
    else if c = '<' then "&lt;".toList
    else if c = '>' then "&gt;".toList
    else [c]

/-- The pattern text of a validated rule before renumbering
(src/lexer.js lines 160-162): regex patterns contribute their source,
string patterns are escaped; both then pass through the entity map. -/
def normalizeExpression (pattern : JSVal) : List Char :=
  htmlEscape (match pattern with
    | .regexp src => src
    | .string s => escapeStringPattern s
    | _ => [])

/-- The callback stored on a compiled rule: `Lexer.lex` only invokes a
callback when `rule.callback` is truthy, and validation has ensured any
truthy callback is a function. -/
def callbackOf (v : JSVal) : Option Callback :=
  match v with
  | .func f => some f
  | _ => none

/-- The per-rule validation chain of `Lexer.compile`
(src/lexer.js lines 147-159), for the rule at 0-based position `i`:
returns the thrown `ValidationError`, or the rule when it passes. -/
def validateRule (i : Nat) (r : Option RuleSpec) : Except VError RuleSpec :=
  match r with
  | none => .error ⟨.idx (i + 1), .string "invalid rule".toList⟩
  | some rule =>
    if !rule.name.truthy then
      .error ⟨.idx (i + 1), .string "missing name".toList⟩
    else if !rule.name.isString || rule.name.str.length == 0 then
      .error ⟨.idx (i + 1), jsFormat "invalid name \x22\x7b1\x7d\x22".toList [rule.name]⟩
    else if !rule.pattern.truthy then
      .error ⟨.name rule.name.str, .string "missing pattern".toList⟩
    else if !rule.pattern.isRegexpOrString then
      .error ⟨.name rule.name.str, jsFormat "invalid pattern \x22\x7b1\x7d\x22".toList [rule.pattern]⟩
    else if rule.callback.truthy && !rule.callback.isFunc then
      .error ⟨.name rule.name.str, jsFormat "invalid callback \x22\x7b1\x7d\x22".toList [rule.callback]⟩
    else .ok rule

/-- One validated rule compiled to its `Rule` object
(src/lexer.js lines 160-164): normalize the pattern text, then renumber its
backreferences with the running offset (`totalCaptures + 1`). -/
def compileRule (rule : RuleSpec) (totalCaptures : Nat) : CRule :=
  let expression := normalizeExpression rule.pattern
  { name := rule.name.str
    pattern := updateReferences (totalCaptures + 1) expression
    callback := callbackOf rule.callback
    discard := rule.discard.truthy
    nCaptures := numCaptures expression }

/-- The compile loop (src/lexer.js lines 145-168), threading the 0-based
index `i`, the running `totalCaptures`, the rules pushed so far, and the
accumulated `overallExp` text.  Each successful iteration appends
`'|({1})'.format(expression)` — which is `undefined`, stringified to
`"undefined"`, because `format` never returns — and advances
`totalCaptures` by `numCaptures + 1`.  On a validation failure the rules
already pushed are kept (the JavaScript loop has already mutated
`this._rules`). -/
def compileLoop : List (Option RuleSpec) → Nat → Nat → List CRule → List Char →
    (List CRule × List Char × Option VError)
  | [], _, _, acc, overall => (acc, overall, none)
  | r :: rest, i, totalCaptures, acc, overall =>
    match validateRule i r with
    | .error e => (acc, overall, some e)
    | .ok rule =>
      let cr := compileRule rule totalCaptures
      compileLoop rest (i + 1) (totalCaptures + cr.nCaptures + 1) (acc ++ [cr])
        (overall ++ (jsFormat "|(\x7b1\x7d)".toList
          [.string (normalizeExpression rule.pattern)]).concatString)

/-- The synthetic line-break rule's callback (src/lexer.js lines 171-176):
advance the line, reset the offset to 1, set the `updated` flag, and return
`null`. -/
def htmlBreakCb : Callback := fun _ st =>
  (JContent.cnull, { line := st.line + 1, offset := 1, updated := true })

/-- The synthetic `HTML_BREAK` rule unshifted onto `this._rules`
(src/lexer.js lines 170-176).  Its pattern string literal
`'<br\\s*\\/?\\s*>'` denotes the text `<br\s*\/?\s*>`. -/
def htmlBreakRule : CRule :=
  { name := "HTML_BREAK".toList
    pattern := "<br\\s*\\/?\\s*>".toList
    callback := some htmlBreakCb
    discard := true
    nCaptures := numCaptures "<br\\s*\\/?\\s*>".toList }

/-- The compiled language regex: source text and flags, as built by
`new RegExp(overallExp, 'gm')`. -/
structure RegexObj where
  source : List Char
  flags : List Char
deriving DecidableEq

/-- The engine state `compile` mutates: `this._rules` and
`this._languageRegex` (both `undefined` before the first compile). -/
structure EngineState where
  rules : Option (List CRule)
  languageRegex : Option RegexObj

/-- `Lexer.compile` (src/lexer.js lines 139-179).  `this._rules` is reset
to `[]` before any validation; on a validation failure the error is thrown
with `this._rules` left holding whatever the loop pushed so far and
`this._languageRegex` untouched.  On success the `HTML_BREAK` rule is
unshifted and the composite source is the prefix `'(<br\s*\/?\s*>)'`
(whose backslashes are eaten by the JavaScript string literal, leaving
`(<brs*/?s*>)`) followed by the loop's accumulated text. -/
def compileFn (args : RulesArg) (st : EngineState) : EngineState × Option VError :=
  let st0 : EngineState := { st with rules := some [] }
  match args with
  | .notArray => (st0, some ⟨.nullKey, .string "no rules provided".toList⟩)
  | .array l =>
    if l.length == 0 then
      (st0, some ⟨.nullKey, .string "no rules provided".toList⟩)
    else
      match compileLoop l 0 0 [] [] with
      | (acc, _, some e) => ({ st0 with rules := some acc }, some e)
      | (acc, overall, none) =>
          ({ rules := some (htmlBreakRule :: acc)
             languageRegex := some ⟨"(<brs*/?s*>)".toList ++ overall, "gm".toList⟩ },
           none)

/-- One match produced by the host engine's global scan: the whole matched
text (`arguments[0]`), the capture slots (`arguments[1..]`, `none` for
`undefined`), and the match index within the input. -/
structure MatchRec where
  whole : List Char
  caps : Captures
  index : Nat

/-- Truthiness of a capture slot as tested by `if (arguments[captureIndex])`
(src/lexer.js line 204): `undefined` and the empty string are falsy. -/
def truthyCap : Option (List Char) → Bool
  | some (_ :: _) => true
  | _ => false

/-- The inner dispatch loop (src/lexer.js lines 203-208): scan `n` capture
slots starting at argument position `ci`; return the position of the first
truthy slot, if any.  (`caps` holds `arguments[1..]`, so argument position
`k` reads `caps[k-1]`.) -/
def findSlot (caps : Captures) (ci : Nat) : Nat → Option Nat
  | 0 => none
  | n + 1 =>
      if truthyCap (caps.getD (ci - 1) none) then some ci
      else findSlot caps (ci + 1) n

/-- The outer dispatch loop (src/lexer.js lines 201-210): walk the rules in
compiled order, giving each rule `numCaptures() + 1` consecutive slots;
return the first rule owning a truthy slot together with the argument
position (`captureIndex`) at which the inner loop broke. -/
def findRuleAux (caps : Captures) : List CRule → Nat → Option (CRule × Nat)
  | [], _ => none
  | r :: rs, ci =>
      match findSlot caps ci (r.nCaptures + 1) with
      | some ci' => some (r, ci')
      | none => findRuleAux caps rs (ci + (r.nCaptures + 1))

/-- Rule dispatch for one match, starting at `captureIndex = 1`. -/
def findRule (rules : List CRule) (caps : Captures) : Option (CRule × Nat) :=
  findRuleAux caps rules 1

/-- `Lexer.Token` (src/lexer.js lines 246-254): name, content, and the
line/column snapshot taken from the scan state at construction time. -/
structure Token where
  name : List Char
  content : JContent
  line : Int
  column : Int
deriving DecidableEq

/-- The running state of one `lex` invocation: accumulated tokens, the
mutable `State`, `startIndex`, and the values the skipped-text block has
passed to `console.log`. -/
structure ScanAcc where
  tokens : List Token
  state : LexState
  startIndex : Nat
  log : List JSVal

/-- The skipped-text block (src/lexer.js lines 189-194): when the match
starts strictly after `startIndex`, pass to `console.log` the value of
`'{1}:{2}: skipped unexpected characters "{3}"'.format(line, offset,
text.slice(startIndex, matchIndex))` — which is `undefined`, since
`String.prototype.format` never returns — and advance the offset by the
skipped length. -/
def applyGap (text : List Char) (acc : ScanAcc) (m : MatchRec) : ScanAcc :=
  if acc.startIndex < m.index then
    { acc with
      log := acc.log ++
        [jsFormat
          "\x7b1\x7d:\x7b2\x7d: skipped unexpected characters \x22\x7b3\x7d\x22".toList
          [.number acc.state.line, .number acc.state.offset,
           .string ((text.drop acc.startIndex).take (m.index - acc.startIndex))]]
      state := { acc.state with
        offset := acc.state.offset + ((m.index - acc.startIndex : Nat) : Int) } }
  else acc

/-- `arguments` as a capture array: `arguments[0]` is the whole match. -/
def matchArgs (m : MatchRec) : Captures := some m.whole :: m.caps

/-- The content candidate and post-callback state (src/lexer.js
lines 200-216): `val` starts as the whole matched substring; when the rule
has a callback it is called with
`arguments.slice(captureIndex, captureIndex + numCaptures + 1)` and the
live state, and its return value replaces `val`. -/
def contentOf (r : CRule) (ci : Nat) (m : MatchRec) (st : LexState) :
    JContent × LexState :=
  match r.callback with
  | some f => f (((matchArgs m).drop ci).take (r.nCaptures + 1)) st
  | none => (JContent.cstr m.whole, st)

/-- JavaScript `val == null` (loose): true for `null` and `undefined`. -/
def isNullish : JContent → Bool
  | .cnull => true
  | .cundefv => true
  | _ => false

/-- Processing of one match after the skipped-text block (src/lexer.js
lines 200-229): dispatch, callback, conditional token push, position
advancement, `startIndex` update.  Returns `none` when no rule owns a
truthy slot — in the JavaScript this is the unconditional `rule.callback`
dereference of `null`, a crash. -/
def lexCore (rules : List CRule) (acc : ScanAcc) (m : MatchRec) :
    Option ScanAcc :=
  match findRule rules m.caps with
  | none => none
  | some (r, ci) =>
    let vs := contentOf r ci m acc.state
    let toks :=
      if !r.discard && !isNullish vs.1 then
        acc.tokens ++ [⟨r.name, vs.1, vs.2.line, vs.2.offset⟩]
      else acc.tokens
    let st2 :=
      if !vs.2.updated then { vs.2 with offset := vs.2.offset + m.whole.length }
      else { vs.2 with updated := false }
    some { tokens := toks, state := st2,
           startIndex := m.index + m.whole.length, log := acc.log }

/-- One iteration of the `text.replace(this._languageRegex, ...)` callback
(src/lexer.js lines 188-230): the skipped-text block, then match
processing. -/
def lexStep (rules : List CRule) (text : List Char) (acc : ScanAcc)
    (m : MatchRec) : Option ScanAcc :=
  lexCore rules (applyGap text acc m) m

/-- The initial scan state of `Lexer.lex`: `new State(1, 1)`,
`startIndex = 0`, no tokens, no diagnostics. -/
def initAcc : ScanAcc :=
  { tokens := [], state := ⟨1, 1, false⟩, startIndex := 0, log := [] }

/-- `Lexer.lex` over an abstract list of successive matches of the composite
pattern, in left-to-right order (the host global-scan iteration is the
external engine's business).  `none` models the crash on a match with no
truthy capture slot. -/
def lexAll (rules : List CRule) (text : List Char) (ms : List MatchRec) :
    Option ScanAcc :=
  ms.foldl (fun acc? m => acc?.bind fun acc => lexStep rules text acc m)
    (some initAcc)

/-- The token list `Lexer.lex` returns. -/
def lexFn (rules : List CRule) (text : List Char) (ms : List MatchRec) :
    Option (List Token) :=
  (lexAll rules text ms).map (·.tokens)


/- Concrete scenario material: the repository's own sample rule set
(`lispRules` in src/unnamed/part_000 and `Lexer.Languages.default`),
used by the concrete runs below. -/

/-- A compiled rule with no callback, no discard and no captures, as
produced for the sample rules (all their patterns have zero captures). -/
def mkRule (n p : String) : CRule :=
  ⟨n.toList, p.toList, none, false, 0⟩

/-- The sample LISP rule specs of the repository's test page. -/
def lispArgs : RulesArg := .array
  [some ⟨.string "LPAREN".toList, .regexp "\\(".toList, .undefv, .undefv⟩,
   some ⟨.string "RPAREN".toList, .regexp "\\)".toList, .undefv, .undefv⟩,
   some ⟨.string "WHITESPACE".toList, .regexp "\\s+".toList, .undefv, .undefv⟩,
   some ⟨.string "SYMBOL".toList, .regexp "\\w+|.".toList, .undefv, .undefv⟩]

/-- The compiled rule list `compile` produces for `lispArgs`. -/
def lispRules : List CRule :=
  [htmlBreakRule, mkRule "LPAREN" "\\(", mkRule "RPAREN" "\\)",
   mkRule "WHITESPACE" "\\s+", mkRule "SYMBOL" "\\w+|."]

/-- Shorthand for a concrete match record. -/
def mTok (w : String) (i : Nat) (caps : Captures) : MatchRec :=
  ⟨w.toList, caps, i⟩

/-- A valid rule spec used by concrete compile runs. -/
def specA : RuleSpec := ⟨.string "A".toList, .string "a".toList, .undefv, .undefv⟩

/-- A rule spec with a `null` pattern, rejected by validation. -/
def specBadPattern : RuleSpec := ⟨.string "B".toList, .jsnull, .undefv, .undefv⟩


/-- A callback that returns `undefined` and leaves the state alone. -/
def cbUndefv : Callback := fun _ st => (JContent.cundefv, st)

/-- A compiled rule whose callback returns `undefined`. -/
def ruleU : CRule := ⟨"U".toList, "u".toList, some cbUndefv, false, 0⟩

/-- Argument position of the first capture slot reserved for the rule at
0-based position `k`, when the dispatch walk starts at position `ci0`:
each earlier rule reserves `numCaptures + 1` slots. -/
def spanStart : Nat → List CRule → Nat → Nat
  | ci0, _, 0 => ci0
  | ci0, [], _ + 1 => ci0
  | ci0, r :: rs, k + 1 => spanStart (ci0 + (r.nCaptures + 1)) rs k

/-- The compile-failure conditions the specification lists for a single
rule element: the rule is null, lacks a non-empty string name, lacks a
pattern that is a string or regex object, or has a (truthy, hence present)
non-invocable callback. -/
def specBadRule (r : Option RuleSpec) : Prop :=
  match r with
  | none => True
  | some rule =>
      ¬ (rule.name.isString = true ∧ rule.name.str ≠ [])
      ∨ rule.pattern.isRegexpOrString = false
      ∨ (rule.callback.truthy = true ∧ rule.callback.isFunc = false)

/-- The compile-failure conditions for the rule list itself: not a
sequence (includes null), empty, or containing a bad rule. -/
def specBadArg : RulesArg → Prop
  | .notArray => True
  | .array l => l = [] ∨ ∃ r ∈ l, specBadRule r

/- Helper lemmas. -/

/-- `takeWhile` over a run of characters satisfying `p` followed by a
non-`p` boundary returns exactly the run. -/
theorem takeWhile_run {p : Char → Bool} :
    ∀ (xs ys : List Char), (∀ c ∈ xs, p c = true) →
      (∀ c, ys.head? = some c → p c = false) →
      (xs ++ ys).takeWhile p = xs := by
  intro xs
  induction xs with
  | nil =>
    intro ys _ hy
    cases ys with
    | nil => rfl
    | cons y ys' => simp [List.takeWhile, hy y rfl]
  | cons x xs' ih =>
    intro ys hx hy
    have hpx : p x = true := hx x (by simp)
    simp [List.takeWhile, hpx]
    exact ih ys (fun c hc => hx c (by simp [hc])) hy

/-- C2: `numCaptures` counts exactly the real capturing-group
open-parentheses of a pattern text: an escaped character (backslash
followed by anything `.` matches) is skipped atomically, a complete
bracketed character class (scanned with escapes, so an escaped `]` does
not end it early) is skipped atomically, and a `(` counts only when not
immediately followed by `?:`, `?!` or `?=`; in particular
`(aaa(bbb(ccc)))` yields 3, `(?:aaa(?!bbb))` yields 0, `[abc(def)]`
yields 0 and `(aaa\(bbb)` yields 1. -/
theorem c2_numCaptures_counts_real_groups :
    numCaptures "(aaa(bbb(ccc)))".toList = 3 ∧
    numCaptures "(?:aaa(?!bbb))".toList = 0 ∧
    numCaptures "[abc(def)]".toList = 0 ∧
    numCaptures "(aaa\\(bbb)".toList = 1 ∧
    (∀ c rest, lineTerm c = false →
      numCapturesAux ('\\' :: c :: rest) = numCapturesAux rest) ∧
    (∀ rest n, clsTailUsed rest = some n →
      numCapturesAux ('[' :: rest) = numCapturesAux (rest.drop n)) ∧
    (∀ c rest, (c = '!' ∨ c = ':' ∨ c = '=') →
      numCapturesAux ('(' :: '?' :: c :: rest) = numCapturesAux ('?' :: c :: rest)) ∧
    (∀ c rest, c ≠ '!' → c ≠ ':' → c ≠ '=' →
      numCapturesAux ('(' :: '?' :: c :: rest) =
        1 + numCapturesAux ('?' :: c :: rest)) ∧
    (∀ c rest, c ≠ '?' →
      numCapturesAux ('(' :: c :: rest) = 1 + numCapturesAux (c :: rest)) := by
  refine ⟨?_, ?_, ?_, ?_, ?_, ?_, ?_, ?_, ?_⟩
  · simp [numCaptures, numCapturesAux, clsTailUsed, lineTerm]
  · simp [numCaptures, numCapturesAux, clsTailUsed, lineTerm]
  · simp [numCaptures, numCapturesAux, clsTailUsed, lineTerm]
  · simp [numCaptures, numCapturesAux, clsTailUsed, lineTerm]
  · intro c rest h
    rw [numCapturesAux]
    simp [h]
  · intro rest n h
    rw [numCapturesAux]
    simp [h]
  · intro c rest h
    rw [numCapturesAux]
    rcases h with h | h | h <;> simp [h]
  · intro c rest h1 h2 h3
    rw [numCapturesAux]
    simp [h1, h2, h3]
  · intro c rest h
    rw [numCapturesAux.eq_def]
    simp [h]

/-- Witness for `c2_numCaptures_counts_real_groups` at concrete inputs. -/
theorem c2_numCaptures_counts_real_groups_witness :
    numCapturesAux ('\\' :: 'a' :: ['(']) = numCapturesAux ['('] ∧
    numCapturesAux ('[' :: 'a' :: ']' :: ['(']) =
      numCapturesAux (('a' :: ']' :: ['(']).drop 2) ∧
    numCapturesAux ('(' :: '?' :: ':' :: []) = numCapturesAux ('?' :: ':' :: []) ∧
    numCapturesAux ('(' :: '?' :: '<' :: []) =
      1 + numCapturesAux ('?' :: '<' :: []) ∧
    numCapturesAux ('(' :: 'a' :: []) = 1 + numCapturesAux ('a' :: []) :=
  ⟨c2_numCaptures_counts_real_groups.2.2.2.2.1 'a' ['('] (by decide),
   c2_numCaptures_counts_real_groups.2.2.2.2.2.1 ('a' :: ']' :: ['(']) 2 (by decide),
   c2_numCaptures_counts_real_groups.2.2.2.2.2.2.1 ':' [] (Or.inr (Or.inl rfl)),
   c2_numCaptures_counts_real_groups.2.2.2.2.2.2.2.1 '<' [] (by decide) (by decide) (by decide),
   c2_numCaptures_counts_real_groups.2.2.2.2.2.2.2.2 'a' [] (by decide)⟩

/-- C1 (counterexample): an out-of-range backreference is not kept as an
octal escape — `\\2` in the one-capture pattern `(a)\\2` is replaced by the
bare digit `2` (the backslash is lost), and `\\9` (not a valid octal digit
run) becomes the text `NaN`. -/
theorem c1_octal_counterexample :
    updateReferences 1 "(a)\\2".toList = "(a)2".toList ∧
    updateReferences 1 "(a)\\2".toList ≠ "(a)\\2".toList ∧
    updateReferences 1 "(a)\\9".toList = "(a)NaN".toList := by
  refine ⟨?_, ?_, ?_⟩ <;>
    simp [updateReferences, urScan, numCaptures, numCapturesAux, clsTailUsed,
      clsTailPlusUsed, lineTerm, decVal, octRender, octPre] <;> decide

/-- C1 (amended): `updateReferences` scans the rule's own pattern text with
`numCaptures` computed from that same text; a genuine backreference token
`\\N` (a backslash followed by a maximal digit run, outside character
classes and not preceded by an escaping backslash) with
`1 <= N <= numCaptures` is rewritten to `\\(N + offset + 1)` where `compile`
passes `offset = totalCaptures + 1` (all capturing groups of earlier rules
including their wrapping groups, plus the line-break group), an
out-of-range `\\N` is replaced by the decimal rendering of its digits
parsed as octal (`NaN` if they start with 8 or 9), losing its backslash;
and after each rule `compile` advances the running `totalCaptures` by that
rule's `numCaptures + 1`. -/
theorem c1_backreference_renumbering :
    (∀ offset p, updateReferences offset p = urScan (numCaptures p) offset p) ∧
    (∀ nc offset d ds rest, d.isDigit = true → (∀ c ∈ ds, c.isDigit = true) →
      (∀ c, rest.head? = some c → c.isDigit = false) →
      urScan nc offset ('\\' :: d :: (ds ++ rest)) =
        (if 0 < decVal (d :: ds) && decVal (d :: ds) ≤ nc
         then '\\' :: (Nat.repr (decVal (d :: ds) + offset + 1)).toList
         else octRender (d :: ds)) ++ urScan nc offset rest) ∧
    (∀ rule tc, (compileRule rule tc).pattern =
      updateReferences (tc + 1) (normalizeExpression rule.pattern)) ∧
    (∀ r rule rest i tc acc overall, validateRule i r = .ok rule →
      compileLoop (r :: rest) i tc acc overall =
        compileLoop rest (i + 1)
          (tc + numCaptures (normalizeExpression rule.pattern) + 1)
          (acc ++ [compileRule rule tc]) (overall ++ "undefined".toList)) := by
  refine ⟨fun _ _ => rfl, ?_, fun _ _ => rfl, ?_⟩
  · intro nc offset d ds rest hd hds hrest
    have htw : (ds ++ rest).takeWhile Char.isDigit = ds :=
      takeWhile_run ds rest hds hrest
    rw [urScan]
    simp only [hd, if_true, htw]
    rw [List.drop_left]
  · intro r rule rest i tc acc overall h
    rw [compileLoop, h]
    rfl

/-- Witness for `c1_backreference_renumbering` at concrete inputs. -/
theorem c1_backreference_renumbering_witness :
    urScan 1 1 ('\\' :: '1' :: ([] ++ ['a'])) =
      (if 0 < decVal ['1'] && decVal ['1'] ≤ 1
       then '\\' :: (Nat.repr (decVal ['1'] + 1 + 1)).toList
       else octRender ['1']) ++ urScan 1 1 ['a'] ∧
    compileLoop [some specA] 0 0 [] [] =
      compileLoop [] 1 (0 + numCaptures (normalizeExpression specA.pattern) + 1)
        ([] ++ [compileRule specA 0]) ([] ++ "undefined".toList) :=
  ⟨c1_backreference_renumbering.2.1 1 1 '1' [] ['a'] (by decide)
     (by intro c hc; cases hc) (by intro c hc; cases hc; decide),
   c1_backreference_renumbering.2.2.2 (some specA) specA [] 0 0 [] [] rfl⟩

/-- C8: evaluation at the failing input.  The escape regex
`/[-.*+?^$()\[\]{}\\]/g` has no capture group, so the replacement string
`'\\$1'` inserts the literal text `\$1` in place of each metacharacter:
the string pattern `a.b` is normalized to `a\$1b`, not to the literal-match
escape `a\.b` the specification describes.  The entity pass for `&`, `<`,
`>` behaves as specified. -/
theorem c8_escape_eval :
    escapeStringPattern "a.b".toList = "a\\$1b".toList ∧
    escapeStringPattern "a.b".toList ≠ "a\\.b".toList ∧
    normalizeExpression (.string "a.b".toList) = "a\\$1b".toList ∧
    htmlEscape "a&<>b".toList = "a&amp;&lt;&gt;b".toList ∧
    normalizeExpression (.regexp "a&<>b".toList) = "a&amp;&lt;&gt;b".toList := by
  refine ⟨?_, ?_, ?_, ?_, ?_⟩ <;> decide

/-- C3: evaluation at the failing input.  Compiling the single rule
`{name: 'A', pattern: 'a'}` yields a composite source of
`(<brs*/?s*>)undefined` — the per-rule segment is the text `undefined`
because `String.prototype.format` never returns, and the line-break prefix
loses its backslashes because line 177 writes `\s` and `\/` inside a plain
string literal — instead of the specified `(<br\s*\/?\s*>)|(a)`.  The
`gm` flags are as specified. -/
theorem c3_composite_eval :
    compileFn (.array [some specA]) ⟨none, none⟩ =
      (⟨some [htmlBreakRule, ⟨"A".toList, "a".toList, none, false, 0⟩],
        some ⟨"(<brs*/?s*>)undefined".toList, "gm".toList⟩⟩, none) ∧
    "(<brs*/?s*>)undefined".toList ≠ "(<br\\s*\\/?\\s*>)|(a)".toList := by
  constructor
  · simp [compileFn, compileLoop, validateRule, compileRule, normalizeExpression,
      escapeStringPattern, htmlEscape, updateReferences, urScan, numCaptures,
      numCapturesAux, clsTailUsed, clsTailPlusUsed, lineTerm, jsFormat,
      JSVal.concatString, JSVal.truthy, JSVal.isString, JSVal.isRegexpOrString,
      JSVal.isFunc, JSVal.str, callbackOf, htmlBreakRule, specA]
  · decide

/-- A rule accepted by `validateRule` satisfies none of the
specification's per-rule failure conditions. -/
theorem validateRule_ok_not_bad {i : Nat} {r : Option RuleSpec}
    {rule : RuleSpec} (h : validateRule i r = .ok rule) : ¬ specBadRule r := by
  cases r with
  | none => simp [validateRule] at h
  | some rule' =>
    simp only [validateRule] at h
    split_ifs at h with h1 h2 h3 h4 h5
    all_goals simp_all [specBadRule]

/-- If some element of the remaining rule list violates the
specification's conditions, the compile loop reports an error. -/
theorem compileLoop_err_of_bad :
    ∀ (l : List (Option RuleSpec)) (i tc : Nat) (acc : List CRule)
      (overall : List Char), (∃ r ∈ l, specBadRule r) →
      ((compileLoop l i tc acc overall).2.2).isSome = true := by
  intro l
  induction l with
  | nil =>
    intro _ _ _ _ h
    rcases h with ⟨r, hr, _⟩
    cases hr
  | cons r0 rest ih =>
    intro i tc acc overall h
    rw [compileLoop]
    cases hv : validateRule i r0 with
    | error e => simp
    | ok rule =>
      rcases h with ⟨r, hr, hbad⟩
      rcases List.mem_cons.mp hr with rfl | hmem
      · exact absurd hbad (validateRule_ok_not_bad hv)
      · simpa using ih _ _ _ _ ⟨r, hmem, hbad⟩

/-- C6 (counterexample): `compile` does mutate engine state on failure.
Compiling `[specA, specBadPattern]` throws (the result carries an error),
yet `_rules` — `none` before the call — now holds the compiled form of the
first rule: the reset and the per-iteration pushes persist. -/
theorem c6_partial_mutation_counterexample :
    ((compileFn (.array [some specA, some specBadPattern]) ⟨none, none⟩).2).isSome
      = true ∧
    (compileFn (.array [some specA, some specBadPattern]) ⟨none, none⟩).1.rules =
      some [⟨"A".toList, "a".toList, none, false, 0⟩] ∧
    (⟨none, none⟩ : EngineState).rules = none := by
  refine ⟨?_, ?_, rfl⟩ <;>
    simp [compileFn, compileLoop, validateRule, compileRule, normalizeExpression,
      escapeStringPattern, htmlEscape, updateReferences, urScan, numCaptures,
      numCapturesAux, clsTailUsed, clsTailPlusUsed, lineTerm, jsFormat,
      JSVal.concatString, JSVal.truthy, JSVal.isString, JSVal.isRegexpOrString,
      JSVal.isFunc, JSVal.str, callbackOf, specA, specBadPattern]

/-- An error produced by `validateRule` is keyed by the rule's 1-based
position, or — once the name has been validated as a non-empty string —
by that name. -/
theorem validateRule_error_key :
    ∀ (i : Nat) (r : Option RuleSpec) (e : VError),
      validateRule i r = .error e →
      e.rulekey = VKey.idx (i + 1) ∨
      ∃ rule s, r = some rule ∧ rule.name = .string s ∧ s ≠ [] ∧
        e.rulekey = VKey.name s := by
  intro i r e h
  cases r with
  | none =>
    simp only [validateRule, Except.error.injEq] at h
    rw [← h]
    exact Or.inl rfl
  | some rule =>
    simp only [validateRule] at h
    split_ifs at h with h1 h2 h3 h4 h5 <;>
      simp only [Except.error.injEq] at h <;> subst h
    · exact Or.inl rfl
    · exact Or.inl rfl
    all_goals
      have hb : rule.name.isString = true ∧ rule.name.str ≠ [] := by
        constructor
        · by_contra hns
          simp only [Bool.not_eq_true] at hns
          exact h2 (by simp [hns])
        · intro hnil
          exact h2 (by simp [hnil])
    all_goals
      rcases hnm : rule.name with _ | _ | b | n | nm | src | f | _ | _ <;>
        rw [hnm] at hb <;> simp [JSVal.isString, JSVal.str] at hb
    all_goals
      refine Or.inr ⟨rule, nm, rfl, hnm, hb, ?_⟩
      simp [hnm, JSVal.str]

/-- When the compile loop reports an error, it is the `validateRule` error
of the first failing rule, at that rule's actual position; every earlier
rule passed validation. -/
theorem compileLoop_error_spec :
    ∀ (l : List (Option RuleSpec)) (i tc : Nat) (acc : List CRule)
      (overall : List Char) (e : VError),
      (compileLoop l i tc acc overall).2.2 = some e →
      ∃ k, ∃ hk : k < l.length,
        validateRule (i + k) (l.get ⟨k, hk⟩) = .error e ∧
        ∀ j (hj : j < k), ∃ rule,
          validateRule (i + j) (l.get ⟨j, Nat.lt_trans hj hk⟩) = .ok rule := by
  intro l
  induction l with
  | nil => intro i tc acc overall e h; simp [compileLoop] at h
  | cons r rest ih =>
    intro i tc acc overall e h
    rw [compileLoop] at h
    cases hv : validateRule i r with
    | error e0 =>
      rw [hv] at h
      simp only [Option.some.injEq] at h
      subst h
      refine ⟨0, Nat.succ_pos rest.length, hv, ?_⟩
      intro j hj
      cases hj
    | ok rule =>
      rw [hv] at h
      simp only at h
      rcases ih (i + 1) _ _ _ e h with ⟨k, hk, herr, hprior⟩
      refine ⟨k + 1, Nat.succ_lt_succ hk, ?_, ?_⟩
      · have hidx : i + (k + 1) = i + 1 + k := by omega
        rw [hidx]
        exact herr
      · intro j hj
        cases j with
        | zero => exact ⟨rule, hv⟩
        | succ j' =>
          have hidx : i + (j' + 1) = i + 1 + j' := by omega
          rw [hidx]
          exact hprior j' (Nat.lt_of_succ_lt_succ hj)

/-- C6 (amended): for every invocation of `compile` where the rule list is
null, not a sequence, or empty, or where some rule is null, lacks a
non-empty string name, lacks a pattern that is a string or regex object,
or has a (present, i.e. truthy) non-invocable callback, `compile` fails by
throwing a `ValidationError`; a failure of the rule list itself carries the
null rule key, and a per-rule failure carries the `validateRule` error of
the first failing rule, whose key is the rule's 1-based index or, once the
name is validated, its name.  Engine state may however be partially
mutated on failure (`_rules` is reset and rules validated before the
failure remain pushed). -/
theorem c6_validation_failures :
    (∀ (args : RulesArg) (st : EngineState), specBadArg args →
      ((compileFn args st).2).isSome = true) ∧
    (∀ st : EngineState, (compileFn .notArray st).2 =
      some ⟨.nullKey, .string "no rules provided".toList⟩) ∧
    (∀ st : EngineState, (compileFn (.array []) st).2 =
      some ⟨.nullKey, .string "no rules provided".toList⟩) ∧
    (∀ (l : List (Option RuleSpec)) (st : EngineState) (e : VError),
      (compileFn (.array l) st).2 = some e → l ≠ [] →
      ∃ k, ∃ hk : k < l.length,
        validateRule k (l.get ⟨k, hk⟩) = .error e ∧
        ∀ j (hj : j < k), ∃ rule,
          validateRule j (l.get ⟨j, Nat.lt_trans hj hk⟩) = .ok rule) ∧
    (∀ (i : Nat) (r : Option RuleSpec) (e : VError),
      validateRule i r = .error e →
      e.rulekey = VKey.idx (i + 1) ∨
      ∃ rule s, r = some rule ∧ rule.name = .string s ∧ s ≠ [] ∧
        e.rulekey = VKey.name s) := by
  refine ⟨?_, fun _ => rfl, fun _ => rfl, ?_, validateRule_error_key⟩
  · intro args st h
    cases args with
    | notArray => simp [compileFn]
    | array l =>
      rcases h with h | h
      · subst h
        simp [compileFn]
      · by_cases hl : l.length == 0
        · simp [compileFn, hl]
        · have hloop := compileLoop_err_of_bad l 0 0 [] [] h
          simp only [compileFn, hl, Bool.false_eq_true, if_false]
          rcases he : compileLoop l 0 0 [] [] with ⟨acc, overall, err⟩
          rw [he] at hloop
          cases err with
          | none => simp at hloop
          | some e => simp
  · intro l st e h hne
    have hl : (l.length == 0) = false := by
      cases l with
      | nil => cases hne rfl
      | cons a t => simp
    simp only [compileFn, hl, Bool.false_eq_true, if_false] at h
    rcases he : compileLoop l 0 0 [] [] with ⟨acc, overall, err⟩
    rw [he] at h
    cases err with
    | none => simp at h
    | some e0 =>
      simp only [Option.some.injEq] at h
      subst h
      have := compileLoop_error_spec l 0 0 [] [] e0 (by rw [he])
      rcases this with ⟨k, hk, herr, hprior⟩
      rw [Nat.zero_add] at herr
      refine ⟨k, hk, herr, ?_⟩
      intro j hj
      rcases hprior j hj with ⟨rule, hr⟩
      rw [Nat.zero_add] at hr
      exact ⟨rule, hr⟩

/-- Witness for `c6_validation_failures` at concrete bad rule lists: the
compile of `[specA, specBadPattern]` throws the `missing pattern` error
keyed by the (validated) name `B` of the failing rule at 1-based
position 2, after the first rule passed validation. -/
theorem c6_validation_failures_witness :
    ((compileFn (.array [some specBadPattern]) ⟨none, none⟩).2).isSome = true ∧
    (∃ k, ∃ hk : k < ([some specA, some specBadPattern] :
        List (Option RuleSpec)).length,
      validateRule k ([some specA, some specBadPattern].get ⟨k, hk⟩) =
        .error ⟨.name "B".toList, .string "missing pattern".toList⟩ ∧
      ∀ j (hj : j < k), ∃ rule,
        validateRule j ([some specA, some specBadPattern].get
          ⟨j, Nat.lt_trans hj hk⟩) = .ok rule) ∧
    ((⟨.name "B".toList, .string "missing pattern".toList⟩ : VError).rulekey =
        VKey.idx (1 + 1) ∨
      ∃ rule s, (some specBadPattern : Option RuleSpec) = some rule ∧
        rule.name = .string s ∧ s ≠ [] ∧
        (⟨.name "B".toList, .string "missing pattern".toList⟩ : VError).rulekey =
          VKey.name s) := by
  have h := c6_validation_failures
  refine ⟨?_, ?_, ?_⟩
  · exact h.1 (.array [some specBadPattern]) ⟨none, none⟩
      (Or.inr ⟨some specBadPattern, by simp, Or.inr (Or.inl rfl)⟩)
  · refine h.2.2.2.1 [some specA, some specBadPattern] ⟨none, none⟩
      ⟨.name "B".toList, .string "missing pattern".toList⟩ ?_ (by simp)
    simp [compileFn, compileLoop, validateRule, compileRule, normalizeExpression,
      escapeStringPattern, htmlEscape, updateReferences, urScan, numCaptures,
      numCapturesAux, clsTailUsed, clsTailPlusUsed, lineTerm, jsFormat,
      JSVal.concatString, JSVal.truthy, JSVal.isString, JSVal.isRegexpOrString,
      JSVal.isFunc, JSVal.str, callbackOf, specA, specBadPattern]
  · exact h.2.2.2.2 1 (some specBadPattern)
      ⟨.name "B".toList, .string "missing pattern".toList⟩ rfl

/-- Every successful compile places the synthetic `HTML_BREAK` rule at
index 0 of the compiled rule list (src/lexer.js lines 170-176). -/
theorem htmlBreak_head_of_compile :
    ∀ (args : RulesArg) (st st' : EngineState),
      compileFn args st = (st', none) →
      ∃ rest, st'.rules = some (htmlBreakRule :: rest) := by
  intro args st st' h
  cases args with
  | notArray => simp [compileFn] at h
  | array l =>
    by_cases hl : l.length == 0
    · simp [compileFn, hl] at h
    · simp only [compileFn, hl, Bool.false_eq_true, if_false] at h
      rcases he : compileLoop l 0 0 [] [] with ⟨acc, overall, err⟩
      rw [he] at h
      cases err with
      | some e => simp at h
      | none =>
        refine ⟨acc, ?_⟩
        have := (Prod.mk.injEq _ _ _ _).mp h
        rw [← this.1]

/-- The built-in line-break callback increments the line, resets the
offset to 1, sets the `updated` flag and returns `null`
(src/lexer.js lines 171-176). -/
theorem htmlBreakCb_spec :
    ∀ (caps : Captures) (s : LexState),
      htmlBreakCb caps s = (JContent.cnull, ⟨s.line + 1, 1, true⟩) :=
  fun _ _ => rfl

/-- C9: evaluation at the failing input.  The structural half of the claim
holds: compiling the sample rules places `HTML_BREAK` at index 0 with
`discard = true` and the line-advancing, column-resetting, null-returning
callback (see also `htmlBreak_head_of_compile` and `htmlBreakCb_spec`).
The behavioral half fails on the program: the same compile produces the
composite source `(<brs*/?s*>)undefined...` — one concatenation with a
single capture group, never an alternation over the rules — which cannot
match plain text such as `foo<br>bar`, so the scan sees no matches at all
and returns no tokens: no line is ever incremented for following tokens
(the repository's own 'Multiple Line Snippets' test fails). -/
theorem c9_htmlbreak_eval :
    compileFn lispArgs ⟨none, none⟩ =
      (⟨some lispRules,
        some ⟨"(<brs*/?s*>)undefinedundefinedundefinedundefined".toList,
              "gm".toList⟩⟩, none) ∧
    lispRules = htmlBreakRule ::
      [mkRule "LPAREN" "\\(", mkRule "RPAREN" "\\)",
       mkRule "WHITESPACE" "\\s+", mkRule "SYMBOL" "\\w+|."] ∧
    htmlBreakRule.discard = true ∧
    htmlBreakCb [] ⟨1, 1, false⟩ = (JContent.cnull, ⟨2, 1, true⟩) ∧
    lexFn lispRules "foo<br>bar".toList [] = some [] := by
  refine ⟨?_, rfl, rfl, rfl, rfl⟩
  simp [compileFn, compileLoop, validateRule, compileRule, normalizeExpression,
    escapeStringPattern, htmlEscape, updateReferences, urScan, numCaptures,
    numCapturesAux, clsTailUsed, clsTailPlusUsed, lineTerm, jsFormat,
    JSVal.concatString, JSVal.truthy, JSVal.isString, JSVal.isRegexpOrString,
    JSVal.isFunc, JSVal.str, callbackOf, htmlBreakRule, lispArgs, lispRules,
    mkRule]

/-- C4: for every accepted match, a token (the firing rule's name, the
content candidate, and the line/column snapshot of the scan state after
the callback ran) is appended exactly when the rule's `discard` flag is
false and the content candidate is not null (JavaScript `val != null`,
which also excludes `undefined`); a nullish content candidate suppresses
emission regardless of `discard`; and absent a callback the content
candidate is the whole matched substring. -/
theorem c4_token_emission :
    ∀ (rules : List CRule) (text : List Char) (acc : ScanAcc) (m : MatchRec)
      (r : CRule) (ci : Nat) (out : ScanAcc),
      findRule rules m.caps = some (r, ci) →
      lexStep rules text acc m = some out →
      ((out.tokens = (applyGap text acc m).tokens ++
          [⟨r.name, (contentOf r ci m (applyGap text acc m).state).1,
            (contentOf r ci m (applyGap text acc m).state).2.line,
            (contentOf r ci m (applyGap text acc m).state).2.offset⟩]) ↔
        (r.discard = false ∧
          isNullish (contentOf r ci m (applyGap text acc m).state).1 = false)) ∧
      (isNullish (contentOf r ci m (applyGap text acc m).state).1 = true →
        out.tokens = (applyGap text acc m).tokens) ∧
      (r.callback = none →
        (contentOf r ci m (applyGap text acc m).state).1 =
          JContent.cstr m.whole) := by
  intro rules text acc m r ci out h1 h2
  simp only [lexStep, lexCore, h1] at h2
  rw [Option.some.injEq] at h2
  subst h2
  refine ⟨?_, ?_, ?_⟩
  · by_cases hd : r.discard <;>
      by_cases hn : isNullish (contentOf r ci m (applyGap text acc m).state).1 <;>
      simp [hd, hn]
  · intro hn
    simp [hn]
  · intro hcb
    simp [contentOf, hcb]

/-- Witness for `c4_token_emission`: a concrete accepted match of a
non-discarded rule without callback emits exactly its token. -/
theorem c4_token_emission_witness :
    (contentOf (mkRule "A" "a") 1 (mTok "a" 0 [some "a".toList])
      (applyGap [] initAcc (mTok "a" 0 [some "a".toList])).state).1 =
      JContent.cstr "a".toList ∧
    (⟨[⟨"A".toList, JContent.cstr "a".toList, 1, 1⟩], ⟨1, 2, false⟩, 1, []⟩
        : ScanAcc).tokens =
      (applyGap [] initAcc (mTok "a" 0 [some "a".toList])).tokens ++
        [⟨"A".toList, JContent.cstr "a".toList, 1, 1⟩] := by
  have h := c4_token_emission [mkRule "A" "a"] [] initAcc
    (mTok "a" 0 [some "a".toList]) (mkRule "A" "a") 1
    ⟨[⟨"A".toList, JContent.cstr "a".toList, 1, 1⟩], ⟨1, 2, false⟩, 1, []⟩
    rfl rfl
  exact ⟨h.2.2 rfl, h.1.mpr ⟨rfl, rfl⟩⟩

/-- C10: when a rule's callback returns `undefined`, no token is appended
for that match (the emission check `val != null` treats `undefined` like
`null`), while the `startIndex` update and the usual position advancement
still take place. -/
theorem c10_undefined_return_suppresses :
    ∀ (rules : List CRule) (text : List Char) (acc : ScanAcc) (m : MatchRec)
      (r : CRule) (ci : Nat) (f : Callback) (out : ScanAcc),
      findRule rules m.caps = some (r, ci) →
      r.callback = some f →
      lexStep rules text acc m = some out →
      (contentOf r ci m (applyGap text acc m).state).1 = JContent.cundefv →
      out.tokens = (applyGap text acc m).tokens ∧
      out.startIndex = m.index + m.whole.length ∧
      out.state =
        (if (contentOf r ci m (applyGap text acc m).state).2.updated = false
         then { (contentOf r ci m (applyGap text acc m).state).2 with
                  offset := (contentOf r ci m (applyGap text acc m).state).2.offset
                    + m.whole.length }
         else { (contentOf r ci m (applyGap text acc m).state).2 with
                  updated := false }) := by
  intro rules text acc m r ci f out h1 hcb h2 hu
  simp only [lexStep, lexCore, h1] at h2
  rw [Option.some.injEq] at h2
  subst h2
  refine ⟨by simp [hu, isNullish], rfl, ?_⟩
  by_cases hupd : (contentOf r ci m (applyGap text acc m).state).2.updated <;>
    simp [hupd]

/-- Witness for `c10_undefined_return_suppresses` at a concrete match. -/
theorem c10_undefined_return_suppresses_witness :
    (⟨[], ⟨1, 2, false⟩, 1, []⟩ : ScanAcc).tokens =
      (applyGap [] initAcc (mTok "u" 0 [some "u".toList])).tokens ∧
    (⟨[], ⟨1, 2, false⟩, 1, []⟩ : ScanAcc).startIndex =
      (mTok "u" 0 [some "u".toList]).index +
        (mTok "u" 0 [some "u".toList]).whole.length := by
  have h := c10_undefined_return_suppresses [ruleU] [] initAcc
    (mTok "u" 0 [some "u".toList]) ruleU 1 cbUndefv ⟨[], ⟨1, 2, false⟩, 1, []⟩
    rfl rfl rfl rfl
  exact ⟨h.1, h.2.1⟩

/-- C7: evaluation at the failing input.  Scanning `xya` with a single
rule matching only `a` (the composite match starts at index 2 while
`startIndex` is 0, so `xy` matched no rule): the skipped-text block passes
`undefined` to `console.log` — the claimed line/column/skipped-substring
content is lost because `String.prototype.format` never returns — while
the column is still advanced by the skipped length (1 to 3) and the scan
continues with the match, emitting its token at column 3; the step is not
aborted by the unmatched input. -/
theorem c7_skip_diagnostic_eval :
    applyGap "xya".toList initAcc (mTok "a" 2 [some "a".toList]) =
      ⟨[], ⟨1, 3, false⟩, 0, [JSVal.undefv]⟩ ∧
    lexStep [mkRule "A" "a"] "xya".toList initAcc (mTok "a" 2 [some "a".toList]) =
      some ⟨[⟨"A".toList, JContent.cstr "a".toList, 1, 3⟩], ⟨1, 4, false⟩, 3,
            [JSVal.undefv]⟩ := by
  constructor <;> rfl

/-- The inner dispatch loop finds no slot exactly when every reserved slot
in its range is falsy (undefined or the empty string). -/
theorem findSlot_none_iff (caps : Captures) :
    ∀ (n ci : Nat), findSlot caps ci n = none ↔
      ∀ j, j < n → truthyCap (caps.getD (ci + j - 1) none) = false := by
  intro n
  induction n with
  | zero => intro ci; simp [findSlot]
  | succ n ih =>
    intro ci
    by_cases ht : truthyCap (caps.getD (ci - 1) none) = true
    · simp only [findSlot, ht, if_true]
      constructor
      · intro h; cases h
      · intro h
        have := h 0 (Nat.succ_pos n)
        simp only [Nat.add_zero] at this
        rw [this] at ht
        cases ht
    · have ht' : truthyCap (caps.getD (ci - 1) none) = false := by
        simpa using ht
      simp only [findSlot, ht', Bool.false_eq_true, if_false]
      rw [ih (ci + 1)]
      constructor
      · intro h j hj
        cases j with
        | zero => simpa using ht'
        | succ j' =>
          have := h j' (Nat.lt_of_succ_lt_succ hj)
          have harith : ci + 1 + j' - 1 = ci + (j' + 1) - 1 := by omega
          rwa [harith] at this
      · intro h j hj
        have := h (j + 1) (Nat.succ_lt_succ hj)
        have harith : ci + (j + 1) - 1 = ci + 1 + j - 1 := by omega
        rwa [harith] at this

/-- The dispatch walk fails exactly when every rule's reserved slot span is
entirely falsy. -/
theorem findRuleAux_none_iff (caps : Captures) :
    ∀ (rules : List CRule) (ci0 : Nat),
      findRuleAux caps rules ci0 = none ↔
      ∀ k (hk : k < rules.length),
        findSlot caps (spanStart ci0 rules k)
          ((rules.get ⟨k, hk⟩).nCaptures + 1) = none := by
  intro rules
  induction rules with
  | nil => intro ci0; simp [findRuleAux]
  | cons r rs ih =>
    intro ci0
    cases hs : findSlot caps ci0 (r.nCaptures + 1) with
    | some ci' =>
      simp only [findRuleAux, hs]
      constructor
      · intro h; cases h
      · intro h
        have h0 : findSlot caps ci0 (r.nCaptures + 1) = none :=
          h 0 (Nat.succ_pos rs.length)
        rw [hs] at h0
        cases h0
    | none =>
      simp only [findRuleAux, hs]
      rw [ih (ci0 + (r.nCaptures + 1))]
      constructor
      · intro h k hk
        cases k with
        | zero => exact hs
        | succ k' => exact h k' (Nat.lt_of_succ_lt_succ hk)
      · intro h k hk
        exact h (k + 1) (Nat.succ_lt_succ hk)

/-- When the dispatch walk succeeds it returns the first rule (in compiled
order) whose reserved span holds a truthy slot, together with the breaking
slot position. -/
theorem findRuleAux_first (caps : Captures) :
    ∀ (rules : List CRule) (ci0 : Nat) (r : CRule) (ci : Nat),
      findRuleAux caps rules ci0 = some (r, ci) →
      ∃ k, ∃ hk : k < rules.length,
        r = rules.get ⟨k, hk⟩ ∧
        findSlot caps (spanStart ci0 rules k)
          ((rules.get ⟨k, hk⟩).nCaptures + 1) = some ci ∧
        ∀ j (hj : j < k),
          findSlot caps (spanStart ci0 rules j)
            ((rules.get ⟨j, Nat.lt_trans hj hk⟩).nCaptures + 1) = none := by
  intro rules
  induction rules with
  | nil => intro ci0 r ci h; cases h
  | cons r0 rs ih =>
    intro ci0 r ci h
    cases hs : findSlot caps ci0 (r0.nCaptures + 1) with
    | some ci' =>
      rw [findRuleAux, hs] at h
      rw [Option.some.injEq] at h
      have hr : r = r0 := by rw [← (Prod.mk.injEq _ _ _ _).mp h |>.1]
      have hci : ci' = ci := (Prod.mk.injEq _ _ _ _).mp h |>.2
      refine ⟨0, Nat.succ_pos rs.length, hr, ?_, ?_⟩
      · rw [show spanStart ci0 (r0 :: rs) 0 = ci0 from rfl, ← hci]
        exact hs
      · intro j hj; cases hj
    | none =>
      rw [findRuleAux, hs] at h
      rcases ih (ci0 + (r0.nCaptures + 1)) r ci h with ⟨k, hk, hr, hslot, hprior⟩
      refine ⟨k + 1, Nat.succ_lt_succ hk, hr, hslot, ?_⟩
      intro j hj
      cases j with
      | zero => exact hs
      | succ j' => exact hprior j' (Nat.lt_of_succ_lt_succ hj)

/-- C5 (counterexample): a match whose only populated slot holds the empty
string (a zero-length group match — a defined value) selects no rule: the
dispatch walk tests truthiness, not definedness, so the "no rule found"
branch of the claim is reached and the step fails (in the JavaScript,
`rule.callback` dereferences `null`). -/
theorem c5_empty_capture_counterexample :
    findRule [mkRule "A" "a*"] [some []] = none ∧
    lexStep [mkRule "A" "a*"] [] initAcc ⟨[], [some []], 0⟩ = none :=
  ⟨rfl, rfl⟩

/-- C5 (amended): the dispatch walk over the rule list in compiled order
selects the first rule one of whose reserved capture slots holds a truthy
value (defined and non-empty); when every slot of every rule is undefined
or the empty string — possible for zero-length matches — no rule is found
and the step fails, so the no-rule branch is reachable rather than
unreachable. -/
theorem c5_dispatch_first_truthy :
    (∀ (caps : Captures) (n ci : Nat), findSlot caps ci n = none ↔
      ∀ j, j < n → truthyCap (caps.getD (ci + j - 1) none) = false) ∧
    (∀ (caps : Captures) (rules : List CRule) (ci0 : Nat),
      findRuleAux caps rules ci0 = none ↔
      ∀ k (hk : k < rules.length),
        findSlot caps (spanStart ci0 rules k)
          ((rules.get ⟨k, hk⟩).nCaptures + 1) = none) ∧
    (∀ (caps : Captures) (rules : List CRule) (r : CRule) (ci : Nat),
      findRule rules caps = some (r, ci) →
      ∃ k, ∃ hk : k < rules.length,
        r = rules.get ⟨k, hk⟩ ∧
        findSlot caps (spanStart 1 rules k)
          ((rules.get ⟨k, hk⟩).nCaptures + 1) = some ci ∧
        ∀ j (hj : j < k),
          findSlot caps (spanStart 1 rules j)
            ((rules.get ⟨j, Nat.lt_trans hj hk⟩).nCaptures + 1) = none) ∧
    (∀ (rules : List CRule) (text : List Char) (acc : ScanAcc) (m : MatchRec),
      lexStep rules text acc m = none ↔ findRule rules m.caps = none) := by
  refine ⟨findSlot_none_iff, findRuleAux_none_iff, ?_, ?_⟩
  · intro caps rules r ci h
    exact findRuleAux_first caps rules 1 r ci h
  · intro rules text acc m
    cases hf : findRule rules m.caps <;> simp [lexStep, lexCore, hf]

/-- Witness for `c5_dispatch_first_truthy` at a concrete match. -/
theorem c5_dispatch_first_truthy_witness :
    (∃ k, ∃ hk : k < [mkRule "A" "a"].length,
      mkRule "A" "a" = [mkRule "A" "a"].get ⟨k, hk⟩ ∧
      findSlot [some "a".toList] (spanStart 1 [mkRule "A" "a"] k)
        (([mkRule "A" "a"].get ⟨k, hk⟩).nCaptures + 1) = some 1 ∧
      ∀ j (hj : j < k),
        findSlot [some "a".toList] (spanStart 1 [mkRule "A" "a"] j)
          (([mkRule "A" "a"].get ⟨j, Nat.lt_trans hj hk⟩).nCaptures + 1) = none) ∧
    (findSlot [] 1 1 = none ↔
      ∀ j, j < 1 → truthyCap (([] : Captures).getD (1 + j - 1) none) = false) :=
  ⟨c5_dispatch_first_truthy.2.2.1 [some "a".toList] [mkRule "A" "a"]
     (mkRule "A" "a") 1 rfl,
   c5_dispatch_first_truthy.1 [] 1 1⟩

/- Sanity checks: the embedding reproduces the expectations of the
repository's own test page (src/unnamed/part_000). -/

/-- `numCaptures` matches the 'Captures' test module expectations. -/
theorem sanity_numCaptures_repo_tests :
    numCaptures "<br\\s*\\/?\\s*>".toList = 0 ∧
    numCaptures "aaa(bbb(ccc)ddd(eee(fff)))(ggg)".toList = 5 ∧
    numCaptures "\\\\\\(aaa(bbb)".toList = 1 ∧
    numCaptures "[abc\\](def)]".toList = 0 ∧
    numCaptures "\\\\[abc(def)]".toList = 0 ∧
    numCaptures "\\[abc\\(def(ghi)\\]".toList = 1 := by
  refine ⟨?_, ?_, ?_, ?_, ?_, ?_⟩ <;>
    simp [numCaptures, numCapturesAux, clsTailUsed, lineTerm]

/-- `updateReferences` matches the 'Backreferences' test module
expectations (offsets as passed by `compile` for each rule's position). -/
theorem sanity_updateReferences_repo_tests :
    updateReferences 1 "(aaa)bbb\\1".toList = "(aaa)bbb\\3".toList ∧
    updateReferences 3 "(aaa)(bbb(ccc))\\1\\2\\3".toList
      = "(aaa)(bbb(ccc))\\5\\6\\7".toList ∧
    updateReferences 1 "(aaa)bbb\\\\\\1".toList = "(aaa)bbb\\\\\\3".toList ∧
    updateReferences 3 "(aaa)(bbb(ccc))\\\\\\\\1\\2".toList
      = "(aaa)(bbb(ccc))\\\\\\\\1\\6".toList ∧
    updateReferences 1 "(aaa)bbb[\\1]".toList = "(aaa)bbb[\\1]".toList ∧
    updateReferences 3 "(aaa)bbb\\[\\1\\]".toList = "(aaa)bbb\\[\\5\\]".toList ∧
    updateReferences 5 "(aaa)bbb[g\\]\\1]".toList = "(aaa)bbb[g\\]\\1]".toList := by
  refine ⟨?_, ?_, ?_, ?_, ?_, ?_, ?_⟩ <;>
    (simp [updateReferences, urScan, numCaptures, numCapturesAux, clsTailUsed,
      clsTailPlusUsed, lineTerm, decVal]; try decide)

/-- Compiling the sample LISP rules yields the expected five compiled
rules (`HTML_BREAK` injected first). -/
theorem sanity_compile_lisp_rules :
    compileFn lispArgs ⟨none, none⟩ =
      (⟨some lispRules,
        some ⟨"(<brs*/?s*>)undefinedundefinedundefinedundefined".toList,
              "gm".toList⟩⟩, none) := by
  simp [compileFn, compileLoop, validateRule, compileRule, normalizeExpression,
    escapeStringPattern, htmlEscape, updateReferences, urScan, numCaptures,
    numCapturesAux, clsTailUsed, clsTailPlusUsed, lineTerm, jsFormat,
    JSVal.concatString, JSVal.truthy, JSVal.isString, JSVal.isRegexpOrString,
    JSVal.isFunc, JSVal.str, callbackOf, htmlBreakRule, lispArgs, lispRules,
    mkRule]

/-- The per-match processing machinery reproduces the 'Single Line
Snippets' token list (names, contents and positions) when fed the match
records that the composite assembly *as specified* (the C3 finding shows
the shipped assembly is broken and produces no such matches) would
deliver for `(foo bar baz)`. -/
theorem sanity_lex_lisp_single_line :
    lexFn lispRules "(foo bar baz)".toList
      [mTok "(" 0 [none, some "(".toList, none, none, none],
       mTok "foo" 1 [none, none, none, none, some "foo".toList],
       mTok " " 4 [none, none, none, some " ".toList, none],
       mTok "bar" 5 [none, none, none, none, some "bar".toList],
       mTok " " 8 [none, none, none, some " ".toList, none],
       mTok "baz" 9 [none, none, none, none, some "baz".toList],
       mTok ")" 12 [none, none, some ")".toList, none, none]]
      = some
      [⟨"LPAREN".toList, .cstr "(".toList, 1, 1⟩,
       ⟨"SYMBOL".toList, .cstr "foo".toList, 1, 2⟩,
       ⟨"WHITESPACE".toList, .cstr " ".toList, 1, 5⟩,
       ⟨"SYMBOL".toList, .cstr "bar".toList, 1, 6⟩,
       ⟨"WHITESPACE".toList, .cstr " ".toList, 1, 9⟩,
       ⟨"SYMBOL".toList, .cstr "baz".toList, 1, 10⟩,
       ⟨"RPAREN".toList, .cstr ")".toList, 1, 13⟩] := by
  simp [lexFn, lexAll, lexStep, lexCore, applyGap, findRule, findRuleAux,
    findSlot, truthyCap, contentOf, isNullish, matchArgs, initAcc,
    htmlBreakRule, htmlBreakCb, numCaptures, numCapturesAux, clsTailUsed,
    lineTerm, lispRules, mkRule, mTok]

end JsLexer
